import Mathlib

/-!
# Verification of the overhearing-agents suggestion pipeline

Shallow embedding of the core components of the repository:

* the window segmenter (text and audio modes) from src/experiments/utils.py,
* the entity matcher from src/experiments/matcha.py,
* the span-search debounce filter from src/experiments/experiment.py,
* the run index / run coordinator from src/experiments/index.py and
  src/experiments/experiment.py,
* the suggestion equivalence test from src/evaluation/utils.py.

Seconds are modelled as rationals, Python byte strings as lists of UInt8,
and fallible code as Except values.
-/

deriving instance DecidableEq for Except

namespace Overhearing

/-- A transcript segment as read from the transcript JSON file:
start and end times in seconds and the segment text.  The JSON field
named end is called stop here because end is a Lean keyword. -/
structure Segment where
  start : ℚ
  stop : ℚ
  text : String
  deriving DecidableEq

/-- Python str.strip: remove leading and trailing whitespace. -/
def pyStrip (s : String) : String :=
  ((s.toList.dropWhile Char.isWhitespace).reverse.dropWhile Char.isWhitespace).reverse.asString

/-- Loop state of text_chunks_from_transcript_file in src/experiments/utils.py:
the pending buffer of kept segment texts, the start time of the buffer, the
accumulated wall-clock span of the buffer, the end of the last processed
segment, the text of the last kept segment, and the windows produced so far. -/
structure TState where
  buffer : List String
  buffer_start : ℚ
  buffer_span_len : ℚ
  last_end : ℚ
  last_text : Option String
  out : List (String × ℚ × ℚ)
  deriving DecidableEq

/-- One iteration of the main loop of text_chunks_from_transcript_file:
add the segment duration to the span; discard the segment when its stripped
text equals the last kept text and it starts exactly at the last end
(Whisper hallucination filter); otherwise append it to the buffer, add the
silence gap to the span, and flush the buffer as a window once the span
reaches yield_every. -/
def tstep (yield_every : ℚ) (st : TState) (seg : Segment) : TState :=
  if some (pyStrip seg.text) = st.last_text ∧ seg.start = st.last_end then
    { st with
      buffer_span_len := st.buffer_span_len + (seg.stop - seg.start),
      last_end := seg.stop }
  else if yield_every ≤ st.buffer_span_len + (seg.stop - seg.start) + (seg.start - st.last_end) then
    { buffer := [],
      buffer_start := seg.stop,
      buffer_span_len := 0,
      last_end := seg.stop,
      last_text := some (pyStrip seg.text),
      out := st.out ++ [(String.intercalate "\n" (st.buffer ++ [pyStrip seg.text]),
        st.buffer_start, seg.stop)] }
  else
    { st with
      buffer := st.buffer ++ [pyStrip seg.text],
      buffer_span_len := st.buffer_span_len + (seg.stop - seg.start) + (seg.start - st.last_end),
      last_end := seg.stop,
      last_text := some (pyStrip seg.text) }

/-- Final flush of text_chunks_from_transcript_file: a nonempty buffer is
emitted as a last window even when shorter than yield_every. -/
def tflush (st : TState) : List (String × ℚ × ℚ) :=
  if st.buffer = [] then st.out
  else st.out ++ [(String.intercalate "\n" st.buffer, st.buffer_start, st.last_end)]

/-- The start-index search of text_chunks_from_transcript_file: skip segments
whose end lies strictly before the seek position; none models the IndexError
that running past the last segment would raise. -/
def dropSeek (start : ℚ) : List Segment → Option (List Segment)
  | [] => none
  | s :: rest => if s.stop < start then dropSeek start rest else some (s :: rest)

/-- max of the segment end times (Python max over the generator). -/
def maxStop : List Segment → ℚ
  | [] => 0
  | [s] => s.stop
  | s :: s' :: rest => max s.stop (maxStop (s' :: rest))

/-- Python truthiness of the seek_to parameter: None and 0 both leave the
start at 0, any other value is used as the seek position. -/
def seekVal : Option ℚ → ℚ
  | none => 0
  | some v => if v = 0 then 0 else v

/-- text_chunks_from_transcript_file from src/experiments/utils.py with
random_seek = False, as a pure function from the parsed segment list.
Raised ValueError / IndexError become Except.error. -/
def text_chunks_from_transcript_file (segments : List Segment) (yield_every : ℚ)
    (seek_to : Option ℚ) : Except String (List (String × ℚ × ℚ)) :=
  match segments with
  | [] => .error "max() arg is an empty sequence"
  | s0 :: rest =>
    let segment_len := maxStop (s0 :: rest)
    let start := seekVal seek_to
    if segment_len < start then .error "Provided starting value is past total duration."
    else
      match dropSeek start (s0 :: rest) with
      | none => .error "list index out of range"
      | some [] => .error "list index out of range"
      | some (f :: tail) =>
        .ok (tflush ((f :: tail).foldl (tstep yield_every)
          { buffer := [], buffer_start := f.start, buffer_span_len := 0,
            last_end := f.start, last_text := none, out := [] }))

/-- Python int(): truncation of a rational toward zero. -/
def pyInt (q : ℚ) : ℤ := Int.tdiv q.num q.den

/-- Ascending half of Python range, with fuel (the step is positive). -/
def pyRangeUp (stop step : ℤ) : ℤ → Nat → List ℤ
  | _, 0 => []
  | cur, n + 1 => if cur < stop then cur :: pyRangeUp stop step (cur + step) n else []

/-- Descending half of Python range, with fuel (the step is negative). -/
def pyRangeDown (stop step : ℤ) : ℤ → Nat → List ℤ
  | _, 0 => []
  | cur, n + 1 => if stop < cur then cur :: pyRangeDown stop step (cur + step) n else []

/-- Python range(start, stop, step) for a nonzero step. -/
def pyRange (start stop step : ℤ) : List ℤ :=
  if 0 < step then pyRangeUp stop step start ((stop - start).toNat + 1)
  else pyRangeDown stop step start ((start - stop).toNat + 1)

/-- audio_chunks_from_file from src/experiments/utils.py with
random_seek = False, as a pure function from the loaded PCM bytes:
seek to the frame-aligned byte offset, then slice fixed-size byte chunks.
A zero range step (int(48000 * yield_every) = 0) raises, modelled as error. -/
def audio_chunks_from_file (audio : List UInt8) (yield_every : ℚ)
    (seek_to : Option ℚ) : Except String (List (List UInt8 × ℚ × ℚ)) :=
  let audio_len : ℤ := audio.length
  let start0 : ℤ := pyInt (48000 * seekVal seek_to)
  let start : ℤ := if seekVal seek_to = 0 then 0 else start0 - start0 % 2
  let chunk_size : ℤ := pyInt (48000 * yield_every)
  if chunk_size = 0 then .error "range() arg 3 must not be zero"
  else .ok ((pyRange start audio_len chunk_size).map (fun sec =>
    ((audio.take (sec + chunk_size).toNat).drop sec.toNat,
      (sec : ℚ) / 48000, ((sec : ℚ) + (chunk_size : ℚ)) / 48000)))

/-! ## Entity matcher (src/experiments/matcha.py)

The matcher works on plain strings: every catalog name is wrapped into the
regex backslash-b escaped-name backslash-b, so a candidate occurrence is a
literal (optionally case-insensitive) occurrence of the name delimited by
word boundaries.  Texts are modelled as lists of characters so that
positions are plain indices. -/

/-- Word characters of the regex word class: alphanumeric or underscore. -/
def isWordChar (c : Char) : Bool := c.isAlphanum || c == '_'

/-- Whether position i of the text holds a word character
(out of range counts as non-word). -/
def wordAt (text : List Char) (i : Nat) : Bool :=
  decide (i < text.length) && isWordChar (text.getD i ' ')

/-- The regex word boundary at position q of the text: exactly one of the
neighbouring positions holds a word character (before the first character
and past the last one counts as non-word). -/
def boundaryAt (text : List Char) (q : Nat) : Bool :=
  (decide (q ≠ 0) && wordAt text (q - 1)) != wordAt text q

/-- Character comparison, case-insensitive when ci is set (re.IGNORECASE). -/
def charEqCI (ci : Bool) (a b : Char) : Bool :=
  if ci then a.toLower == b.toLower else a == b

/-- Whether the name characters match the text characters starting at
position p (entirely within the text). -/
def charsMatchAt (ci : Bool) : List Char → List Char → Nat → Bool
  | [], _, _ => true
  | c :: cs, text, p =>
    decide (p < text.length) && charEqCI ci c (text.getD p ' ') && charsMatchAt ci cs text (p + 1)

/-- Whether the word-boundary-anchored literal name regex matches the text
at position p (the finditer candidate test, with the match flags). -/
def matchesAt (ci : Bool) (name text : List Char) (p : Nat) : Bool :=
  boundaryAt text p && charsMatchAt ci name text p && boundaryAt text (p + name.length)

/-- The recheck of the extraction loop: re.match of the name regex against
text sliced from position p, with no flags, hence case-sensitive.  The
leading word boundary is evaluated at the start of the slice, where there is
no preceding character, so it holds exactly when the character at p is a
word character. -/
def matchesPrefix (name text : List Char) (p : Nat) : Bool :=
  wordAt text p && charsMatchAt false name text p && boundaryAt text (p + name.length)

/-- re.finditer scan: try every position left to right and resume after the
end of each match.  The fuel bounds the scan by the text length. -/
def finditerGo (ci : Bool) (name text : List Char) : Nat → Nat → List Nat
  | _, 0 => []
  | p, fuel + 1 =>
    if text.length < p then []
    else if matchesAt ci name text p then p :: finditerGo ci name text (p + max name.length 1) fuel
    else finditerGo ci name text (p + 1) fuel

/-- All (non-overlapping, left-to-right) occurrences of the name regex. -/
def finditer (ci : Bool) (name text : List Char) : List Nat :=
  finditerGo ci name text 0 (text.length + 1)

/-- A candidate match: the catalog name and the start offset of its
occurrence (an EntityMatch; the matched length equals the name length
because matching is literal up to case). -/
structure Cand where
  name : List Char
  pos : Nat
  deriving DecidableEq

/-- Stable insertion into a list sorted by name length descending: the new
candidate goes after every candidate of length at least its own, so the
whole sort matches Python sorted(key=len, reverse=True), which is stable. -/
def insertByLenDesc (c : Cand) : List Cand → List Cand
  | [] => [c]
  | x :: xs => if c.name.length ≤ x.name.length then x :: insertByLenDesc c xs else c :: x :: xs

/-- Python sorted(matches, key=len of match, reverse=True). -/
def sortByLenDesc (l : List Cand) : List Cand := l.foldl (fun acc c => insertByLenDesc c acc) []

/-- find_potential_gamedata_matches: every occurrence of every catalog name
in the text, sorted by match length descending, ties kept in catalog and
scan order. -/
def find_potential_gamedata_matches (catalog : List (List Char)) (text : List Char)
    (ci : Bool) : List Cand :=
  sortByLenDesc ((catalog.map (fun nm => (finditer ci nm text).map (fun p => Cand.mk nm p))).flatten)

/-- The overlap test of the extraction loop:
best.start less-or-equal other.start less-or-equal best.end, or
best.start less-or-equal other.end less-or-equal best.end. -/
def overlapB (best c : Cand) : Bool :=
  (decide (best.pos ≤ c.pos) && decide (c.pos ≤ best.pos + best.name.length)) ||
  (decide (best.pos ≤ c.pos + c.name.length) &&
    decide (c.pos + c.name.length ≤ best.pos + best.name.length))

/-- Overwrite n characters starting at position p with spaces, keeping all
other positions unchanged (the in-place erasure that preserves offsets). -/
def eraseSpan : List Char → Nat → Nat → List Char
  | [], _, _ => []
  | _ :: cs, 0, n + 1 => ' ' :: eraseSpan cs 0 n
  | c :: cs, 0, 0 => c :: cs
  | c :: cs, p + 1, n => c :: eraseSpan cs p n

/-- The removal pass after accepting a match: drop every pending candidate
that overlaps the accepted span and whose name no longer matches at its
original start position in the erased text.  Python iterates over a
reversed copy of the list and removes by value; on lists of pairwise
distinct candidates that is exactly a filter. -/
def pruneOverlaps (best : Cand) (text' : List Char) (rest : List Cand) : List Cand :=
  rest.filter (fun c => !(overlapB best c && !matchesPrefix c.name text' c.pos))

/-- The greedy extraction loop of extract_gamedata_entities: pop the longest
remaining candidate, accept it, erase its span with spaces, prune the
pending overlapping candidates, repeat.  The fuel is the initial number of
candidates; the loop consumes at least one candidate per iteration, so that
much fuel is never exhausted. -/
def extractLoop : Nat → List Char → List Cand → List Cand → List Cand
  | _, _, [], acc => acc
  | 0, _, _ :: _, acc => acc
  | fuel + 1, text, best :: rest, acc =>
    extractLoop fuel (eraseSpan text best.pos best.name.length)
      (pruneOverlaps best (eraseSpan text best.pos best.name.length) rest) (acc ++ [best])

/-- extract_gamedata_entities from src/experiments/matcha.py, as a function
of the catalog of (already normalized) qualified names and of the text.
extract_npc_entities is the same algorithm over the NPC name catalog. -/
def extract_gamedata_entities (catalog : List (List Char)) (text : List Char)
    (ci : Bool) : List Cand :=
  extractLoop (find_potential_gamedata_matches catalog text ci).length text
    (find_potential_gamedata_matches catalog text ci) []

/-! ## Span-search debounce filter (Experiment.run_text_span_search) -/

/-- A suggestion key: (suggestion type, suggestion name). -/
abbrev SKey := String × String

/-- Mutable state of the span-search loop across windows: the last emitted
suggestion key, the per-key last-emission end time map, and the set of
currently staged NPCs. -/
structure SpanState where
  last_suggestion : Option SKey
  suggestion_seen_at : List (SKey × ℚ)
  staged_npcs : List String
  deriving DecidableEq

/-- Read of the defaultdict suggestion_seen_at: a missing key reads as
minus 9999.9. -/
def seenAt (m : List (SKey × ℚ)) (k : SKey) : ℚ :=
  match m.lookup k with
  | some v => v
  | none => -(99999 / 10 : ℚ)

/-- Write to suggestion_seen_at. -/
def setSeen (m : List (SKey × ℚ)) (k : SKey) (v : ℚ) : List (SKey × ℚ) :=
  (k, v) :: m.filter (fun kv => !(kv.1 == k))

/-- The NPC pass of one span-search window: walk the npc matches in order,
staging an absent NPC (a stage_npc suggestion) and unstaging a present one
(an unstage_npc suggestion).  The staged set is updated here, at match
time, before any suppression check runs. -/
def buildNpcTuples (staged : List String) : List String → List SKey × List String
  | [] => ([], staged)
  | npc :: rest =>
    if staged.contains npc then
      let r := buildNpcTuples (staged.erase npc) rest
      (("unstage_npc", npc) :: r.1, r.2)
    else
      let r := buildNpcTuples (npc :: staged) rest
      (("stage_npc", npc) :: r.1, r.2)

/-- The suppression loop over one window's suggestion tuples: skip a tuple
already suggested in this span, or equal to the last emitted suggestion, or
whose key was last emitted within the 300 second debounce interval of this
window's end; otherwise commit it, updating the span set, the last emitted
key and the seen-at map. -/
def emitLoop (endT : ℚ) : List SKey → List SKey → Option SKey → List (SKey × ℚ) → List SKey →
    List SKey × Option SKey × List (SKey × ℚ)
  | [], _, last, seen, out => (out, last, seen)
  | k :: rest, seen_this_span, last, seen, out =>
    if seen_this_span.contains k then emitLoop endT rest seen_this_span last seen out
    else if last == some k then emitLoop endT rest seen_this_span last seen out
    else if endT - seenAt seen k ≤ 300 then emitLoop endT rest seen_this_span last seen out
    else emitLoop endT rest (k :: seen_this_span) (some k) (setSeen seen k endT) (out ++ [k])

/-- One window of Experiment.run_text_span_search: the entity suggestion
tuples come from the gamedata matches, the NPC tuples from the NPC matches
(toggling the staged set at match time), then the suppression loop runs
over all tuples of the window. -/
def processWindow (st : SpanState) (endT : ℚ) (entTuples : List SKey) (npcs : List String) :
    SpanState × List SKey :=
  let np := buildNpcTuples st.staged_npcs npcs
  let r := emitLoop endT (entTuples ++ np.1) [] st.last_suggestion st.suggestion_seen_at []
  (⟨r.2.1, r.2.2, np.2⟩, r.1)

/-- Initial state of run_text_span_search. -/
def initSpanState : SpanState := ⟨none, [], []⟩

/-- A whole span-search run over its windows (each given by its end time,
its entity-match tuples and its NPC matches), collecting the emitted
suggestions tagged with the end time of their window. -/
def runWindows : SpanState → List (ℚ × List SKey × List String) → List (ℚ × SKey)
  | _, [] => []
  | st, (endT, ents, npcs) :: rest =>
    let r := processWindow st endT ents npcs
    r.2.map (fun k => (endT, k)) ++ runWindows r.1 rest

/-! ## Suggestion equivalence (src/evaluation/utils.py) -/

/-- The payload fields of a logged suggestion that suggestions_are_same
reads, flattened into one record: the category discriminator, the gamedata
entity, the improvised-NPC fields, and the foundry action fields. -/
structure Sugg where
  suggest_type : String
  entity : String
  race : String
  background : String
  culture : String
  action_type : String
  action_npc_name : String
  action_text : String
  deriving DecidableEq

/-- A logged suggestion: its time span and its payload.  The end field is
called stop because end is a Lean keyword. -/
structure SuggestionLog where
  start : ℚ
  stop : ℚ
  suggestion : Sugg
  deriving DecidableEq

/-- suggestions_are_same from src/evaluation/utils.py.  The fuzzy text
similarity scorer (rapidfuzz) is a parameter of the Python function and is
kept as a parameter here. -/
def suggestions_are_same (earlier later : SuggestionLog) (tolerance : ℚ)
    (match_npc_name_only : Bool) (strict_match_improvised_npc : Bool)
    (ratioFn : String → String → ℚ) (npc_speech_similarity_threshold : ℚ) : Bool :=
  if later.stop < earlier.start then false
  else if !(decide (|later.stop - earlier.stop| ≤ tolerance)) then false
  else if !(earlier.suggestion.suggest_type == later.suggestion.suggest_type) then false
  else if earlier.suggestion.suggest_type == "gamedata" then
    earlier.suggestion.entity == later.suggestion.entity
  else if earlier.suggestion.suggest_type == "improvised_npc" then
    if strict_match_improvised_npc then
      earlier.suggestion.race == later.suggestion.race &&
      earlier.suggestion.background == later.suggestion.background &&
      earlier.suggestion.culture == later.suggestion.culture
    else true
  else if earlier.suggestion.suggest_type == "foundry" then
    if match_npc_name_only then
      earlier.suggestion.action_npc_name == later.suggestion.action_npc_name
    else if !(earlier.suggestion.action_type == later.suggestion.action_type) then false
    else if earlier.suggestion.action_type == "send_npc_speech" then
      earlier.suggestion.action_npc_name == later.suggestion.action_npc_name &&
      decide (npc_speech_similarity_threshold <
        ratioFn earlier.suggestion.action_text later.suggestion.action_text)
    else
      earlier.suggestion.action_npc_name == later.suggestion.action_npc_name
  else false

/-! ## Run index and run coordinator (src/experiments/index.py and
Experiment.run in src/experiments/experiment.py) -/

/-- One record of the run index: a JSON object whose fields may each be
absent. -/
structure Rec where
  state : Option String
  path : Option String
  error : Option String
  last_processed : Option ℚ
  deriving DecidableEq

/-- Python dict merge a |= b on a record: fields present in b overwrite. -/
def Rec.merge (a b : Rec) : Rec where
  state := b.state.orElse fun _ => a.state
  path := b.path.orElse fun _ => a.path
  error := b.error.orElse fun _ => a.error
  last_processed := b.last_processed.orElse fun _ => a.last_processed

/-- The empty record (the empty JSON object). -/
def Rec.empty : Rec := ⟨none, none, none, none⟩

/-- The JSON object mapping run keys to records. -/
abbrev IndexData := List (String × Rec)

/-- Read of a key from the object. -/
def getRec (d : IndexData) (k : String) : Option Rec := d.lookup k

/-- Write of a key into the object. -/
def setRec (d : IndexData) (k : String) (r : Rec) : IndexData :=
  (k, r) :: d.filter (fun kv => !(kv.1 == k))

/-- The state of an ExperimentRunIndex: its in-memory data, the on-disk
file contents, and the keys updated in memory since the last sync. -/
structure IndexState where
  mem : IndexData
  disk : IndexData
  updated : List String
  deriving DecidableEq

/-- _sync: under the file lock, re-read the disk, overlay the keys updated
in this process since the last sync, and write the merge back (skipping the
write when there was no update); the updated set is cleared. -/
def syncIdx (s : IndexState) : IndexState :=
  let merged := s.updated.foldl
    (fun acc k =>
      match getRec s.mem k with
      | some r => setRec acc k r
      | none => acc) s.disk
  if s.updated = [] then ⟨merged, s.disk, []⟩
  else ⟨merged, merged, []⟩

/-- set_key: replace the whole record of the key. -/
def set_key (s : IndexState) (k : String) (r : Rec) : IndexState :=
  ⟨setRec s.mem k r, s.disk, k :: s.updated⟩

/-- update_key: create the record if missing, then merge the fields. -/
def update_key (s : IndexState) (k : String) (r : Rec) : IndexState :=
  ⟨setRec s.mem k (Rec.merge ((getRec s.mem k).getD Rec.empty) r), s.disk, k :: s.updated⟩

/-- is_done_or_running: sync, then test whether the state field of the key
is running or done.  Returns the answer and the synced index. -/
def is_done_or_running (s : IndexState) (k : String) : Bool × IndexState :=
  let s' := syncIdx s
  (match getRec s'.mem k with
   | some r => r.state == some "running" || r.state == some "done"
   | none => false, s')

/-- is_partially_complete: False when the key is done or running, else the
recorded last_processed watermark (0 when absent).  The float() conversion
applied by the caller maps False to 0, which is folded in here. -/
def is_partially_complete (s : IndexState) (k : String) : ℚ × IndexState :=
  let r := is_done_or_running s k
  if r.1 then (0, r.2)
  else ((((getRec r.2.mem k).getD Rec.empty).last_processed).getD 0, r.2)

/-- ExperimentRunIndex.running(key, fp): set the key to state running with
its output path, run the body, then mark the key done on normal exit, or
error with the captured trace on an exception, re-raising it; the index is
synced on scope exit in both cases.  The body is any state transformer that
either returns or raises; the error string stands for the formatted
traceback. -/
def runningScope (s : IndexState) (k : String) (p : String)
    (body : IndexState → IndexState × Except String Unit) :
    IndexState × Except String Unit :=
  match body (set_key s k ⟨some "running", some p, none, none⟩) with
  | (s2, .ok _) => (syncIdx (update_key s2 k ⟨some "done", some p, none, none⟩), .ok ())
  | (s2, .error e) => (syncIdx (update_key s2 k ⟨some "error", some p, some e, none⟩), .error e)

/-- update_last_seen: merge the watermark into the record of the key and
sync to disk immediately. -/
def update_last_seen (s : IndexState) (k : String) (ts : ℚ) : IndexState :=
  syncIdx (update_key s k ⟨none, none, none, some ts⟩)

/-- Outcome of the decision part of Experiment.run around the experiment
body: whether the body ran, the seek offset handed to it, whether a stale
partial log dir was moved aside to a model-key__until-N name, whether a
gztar backup archive of the log dir was created, and whether the original
log dir tree was then removed (it is recreated empty just after). -/
structure RunOutcome where
  ran : Bool
  seek : ℚ
  movedAside : Bool
  archived : Bool
  removedOriginal : Bool
  deriving DecidableEq

/-- The control flow of Experiment.run: skip when the key is done or
running and force_rerun is not set; under force_rerun start from 0 and
back up (archive) and clear any existing log dir; otherwise resume from the
partial-completion watermark, moving the stale log dir aside when one
exists. -/
def runDecision (s : IndexState) (k : String) (force_rerun : Bool)
    (log_dir_exists : Bool) : RunOutcome × IndexState :=
  if force_rerun then
    ({ ran := true, seek := 0, movedAside := false,
       archived := log_dir_exists, removedOriginal := log_dir_exists }, s)
  else
    let r := is_done_or_running s k
    if r.1 then
      ({ ran := false, seek := 0, movedAside := false, archived := false,
         removedOriginal := false }, r.2)
    else
      let pc := is_partially_complete r.2 k
      let moved := !(pc.1 == 0) && log_dir_exists
      let dirStill := log_dir_exists && !moved
      ({ ran := true, seek := pc.1, movedAside := moved,
         archived := dirStill, removedOriginal := dirStill }, pc.2)

/-! ## Window stream predicates (for the segmenter invariants) -/

/-- Windows are contiguous: each window ends exactly where the next one
starts. -/
def windChain {α : Type} (l : List (α × ℚ × ℚ)) : Prop :=
  List.Chain' (fun a b => a.2.2 = b.2.1) l

/-- Every window of the stream runs forward in time. -/
def windWF {α : Type} (l : List (α × ℚ × ℚ)) : Prop :=
  ∀ w ∈ l, w.2.1 ≤ w.2.2

/-- Time t is covered by some window of the stream. -/
def covers {α : Type} (l : List (α × ℚ × ℚ)) (t : ℚ) : Prop :=
  ∃ w ∈ l, w.2.1 ≤ t ∧ t ≤ w.2.2

/-- Boolean equality agrees with decidable propositional equality; used to
evaluate lookups in concrete runs. -/
theorem beq_eq_decideP {α : Type} [BEq α] [LawfulBEq α] [DecidableEq α] (a b : α) :
    (a == b) = decide (a = b) := by
  by_cases h : a = b
  · subst h
    simp
  · simp [h]

/-- C6: on the transcript with segments (0,5,hello), (5,5,hello), (5,10,world)
and yield_every = 8 with no seek, the zero-length duplicate hello segment is
discarded as a hallucination and exactly one window is produced, with text
hello-newline-world, start 0 and end 10. -/
theorem C6_zero_length_duplicate_dropped :
    text_chunks_from_transcript_file
      [⟨0, 5, "hello"⟩, ⟨5, 5, "hello"⟩, ⟨5, 10, "world"⟩] 8 none
      = .ok [("hello\nworld", 0, 10)] := by
  norm_num +decide [text_chunks_from_transcript_file, tstep, tflush, dropSeek, maxStop,
    seekVal, List.foldl, String.intercalate, pyStrip]

/-- C1: starting from a fresh index, a run of key f/m that commits
watermark 42 and then crashes leaves the key recorded on disk in state
error with the captured trace and last_processed 42.  A fresh non-forced
run attempt with the same key then runs with seek offset 42 — never 0 —
moving the stale log dir aside; a forced rerun instead runs with seek
offset 0 and the prior output directory is first backed up into an archive
(so its contents are preserved, not merely deleted) before the tree is
cleared for the new run. -/
theorem C1_crash_resume_and_force_rerun :
    getRec (runningScope ⟨[], [], []⟩ "f/m" "p"
        (fun i => (update_last_seen i "f/m" 42, .error "Traceback: boom"))).1.disk "f/m" =
      some ⟨some "error", some "p", some "Traceback: boom", some 42⟩ ∧
    (runningScope ⟨[], [], []⟩ "f/m" "p"
        (fun i => (update_last_seen i "f/m" 42, .error "Traceback: boom"))).2 =
      .error "Traceback: boom" ∧
    (runDecision (runningScope ⟨[], [], []⟩ "f/m" "p"
        (fun i => (update_last_seen i "f/m" 42, .error "Traceback: boom"))).1
        "f/m" false true).1 = ⟨true, 42, true, false, false⟩ ∧
    (runDecision (runningScope ⟨[], [], []⟩ "f/m" "p"
        (fun i => (update_last_seen i "f/m" 42, .error "Traceback: boom"))).1
        "f/m" true true).1 = ⟨true, 0, false, true, true⟩ := by
  decide

/-- C2, counterexample: in span-search mode with the 300 second debounce
window, three matches of the same subject in windows ending at 10, 20 and
320 seconds with nothing else emitted in between produce exactly one
emission, at 10: the second and the third are both suppressed, the third by
the immediate-repeat rule (the subject is still the last emitted key), even
though 320 - 10 exceeds the debounce window.  The claim says the third is
emitted. -/
theorem C2_counterexample :
    runWindows initSpanState
      [(10, [("Monster", "x")], []), (20, [("Monster", "x")], []),
        (320, [("Monster", "x")], [])]
      = [(10, ("Monster", "x"))] := by
  norm_num +decide [runWindows, processWindow, emitLoop, buildNpcTuples, seenAt, setSeen,
    initSpanState, List.lookup, beq_eq_decideP]

/-- C2, amended: with the same 300 second debounce window and matches of
the same subject at window ends 10, 20 and 320, the first is emitted and
the second is suppressed; the third is suppressed as well when nothing else
was emitted in between (it still equals the last emitted key), and it is
emitted exactly when some other suggestion was emitted in between (here a
different subject at 25), the debounce interval 320 - 10 > 300 having
expired. -/
theorem C2_amended_debounce :
    runWindows initSpanState
      [(10, [("Monster", "x")], []), (20, [("Monster", "x")], []),
        (25, [("Monster", "y")], []), (320, [("Monster", "x")], [])]
      = [(10, ("Monster", "x")), (25, ("Monster", "y")), (320, ("Monster", "x"))] := by
  norm_num +decide [runWindows, processWindow, emitLoop, buildNpcTuples, seenAt, setSeen,
    initSpanState, List.lookup, beq_eq_decideP]

/-- Looking up a key just written into the index object finds it. -/
theorem getRec_setRec (d : IndexData) (k : String) (r : Rec) :
    getRec (setRec d k r) k = some r := by
  simp [getRec, setRec, List.lookup]

/-- Dropping the entries of another key from an association list does not
change a lookup. -/
theorem lookup_filter_ne (d : IndexData) (k k' : String) (h : k ≠ k') :
    List.lookup k (d.filter (fun kv => !(kv.1 == k'))) = List.lookup k d := by
  induction d with
  | nil => rfl
  | cons kv rest ih =>
    by_cases hk' : kv.1 = k'
    · have h1 : (kv.1 == k') = true := by simp [hk']
      have h2 : (k == kv.1) = false := by simp [hk', h]
      simp [List.filter_cons, h1, List.lookup, h2, ih]
    · have h1 : (kv.1 == k') = false := by simp [hk']
      by_cases hk2 : k = kv.1
      · simp [List.filter_cons, h1, List.lookup, hk2]
      · have h2 : (k == kv.1) = false := by simp [hk2]
        simp [List.filter_cons, h1, List.lookup, h2, ih]

/-- Looking up another key is unaffected by a write. -/
theorem getRec_setRec_ne (d : IndexData) (k k' : String) (r : Rec) (h : k ≠ k') :
    getRec (setRec d k' r) k = getRec d k := by
  have hbeq : (k == k') = false := by simp [h]
  simp [getRec, setRec, List.lookup, hbeq, lookup_filter_ne d k k' h]

/-- The merge step of _sync writes the in-memory record of every updated
key into the merged object. -/
theorem getRec_syncFold (mem : IndexData) (k : String) (r : Rec)
    (hr : getRec mem k = some r) :
    ∀ (upd : List String) (acc : IndexData),
      (k ∈ upd ∨ getRec acc k = some r) →
      getRec (upd.foldl
        (fun acc k =>
          match getRec mem k with
          | some r => setRec acc k r
          | none => acc) acc) k = some r := by
  intro upd
  induction upd with
  | nil =>
    intro acc hacc
    rcases hacc with h | h
    · exact absurd h (List.not_mem_nil k)
    · simpa using h
  | cons k0 rest ih =>
    intro acc hacc
    simp only [List.foldl_cons]
    by_cases hk : k = k0
    · subst hk
      apply ih
      right
      rw [hr]
      exact getRec_setRec acc k r
    · apply ih
      rcases hacc with h | h
      · rcases List.mem_cons.mp h with h0 | h0
        · exact absurd h0 hk
        · exact Or.inl h0
      · right
        cases hmem : getRec mem k0 with
        | none => simpa [hmem] using h
        | some r0 => simpa [hmem, getRec_setRec_ne acc k k0 r0 hk] using h

/-- After _sync the updated set is empty and memory and disk agree. -/
theorem syncIdx_flushed (s : IndexState) :
    (syncIdx s).updated = [] ∧ (syncIdx s).mem = (syncIdx s).disk := by
  unfold syncIdx
  by_cases h : s.updated = []
  · simp [h]
  · simp [h]

/-- After _sync, every key updated in memory has its memory record on
disk. -/
theorem syncIdx_disk_of_updated (s : IndexState) (k : String) (r : Rec)
    (hk : k ∈ s.updated) (hr : getRec s.mem k = some r) :
    getRec (syncIdx s).disk k = some r := by
  unfold syncIdx
  have hne : ¬s.updated = [] := by
    intro h
    rw [h] at hk
    exact List.not_mem_nil k hk
  simp only [hne, if_false]
  exact getRec_syncFold s.mem k r hr s.updated s.disk (Or.inl hk)

/-- C7: runningScope(key, outputPath) marks the key running with its output
path; when the body returns normally the key transitions to done, and when
the body raises the key transitions to error carrying the captured trace
while the same exception is re-raised to the caller; in both cases the
index is flushed to disk on scope exit (the updated set is cleared, memory
and disk agree, and the key's final record is on disk). -/
theorem C7_running_scope (s : IndexState) (k p : String)
    (body : IndexState → IndexState × Except String Unit) :
    (∀ s2, body (set_key s k ⟨some "running", some p, none, none⟩) = (s2, .ok ()) →
      (runningScope s k p body).2 = .ok () ∧
      (runningScope s k p body).1.updated = [] ∧
      (runningScope s k p body).1.mem = (runningScope s k p body).1.disk ∧
      (getRec (runningScope s k p body).1.disk k) =
        some (Rec.merge ((getRec s2.mem k).getD Rec.empty)
          ⟨some "done", some p, none, none⟩) ∧
      ((Rec.merge ((getRec s2.mem k).getD Rec.empty)
          ⟨some "done", some p, none, none⟩).state = some "done")) ∧
    (∀ s2 e, body (set_key s k ⟨some "running", some p, none, none⟩) = (s2, .error e) →
      (runningScope s k p body).2 = .error e ∧
      (runningScope s k p body).1.updated = [] ∧
      (runningScope s k p body).1.mem = (runningScope s k p body).1.disk ∧
      (getRec (runningScope s k p body).1.disk k) =
        some (Rec.merge ((getRec s2.mem k).getD Rec.empty)
          ⟨some "error", some p, some e, none⟩) ∧
      ((Rec.merge ((getRec s2.mem k).getD Rec.empty)
          ⟨some "error", some p, some e, none⟩).state = some "error") ∧
      ((Rec.merge ((getRec s2.mem k).getD Rec.empty)
          ⟨some "error", some p, some e, none⟩).error = some e)) := by
  constructor
  · intro s2 hbody
    have hscope : runningScope s k p body =
        (syncIdx (update_key s2 k ⟨some "done", some p, none, none⟩), .ok ()) := by
      unfold runningScope
      rw [hbody]
    rw [hscope]
    refine ⟨rfl, (syncIdx_flushed _).1, (syncIdx_flushed _).2, ?_, rfl⟩
    apply syncIdx_disk_of_updated
    · simp [update_key]
    · simp [update_key, getRec_setRec]
  · intro s2 e hbody
    have hscope : runningScope s k p body =
        (syncIdx (update_key s2 k ⟨some "error", some p, some e, none⟩), .error e) := by
      unfold runningScope
      rw [hbody]
    rw [hscope]
    refine ⟨rfl, (syncIdx_flushed _).1, (syncIdx_flushed _).2, ?_, rfl, rfl⟩
    apply syncIdx_disk_of_updated
    · simp [update_key]
    · simp [update_key, getRec_setRec]

/-- Witness for C7 at a concrete index, key and bodies: a body that
returns, and a body that commits a watermark and raises. -/
theorem C7_running_scope_witness :
    ((runningScope ⟨[], [], []⟩ "k" "p" (fun i => (i, .ok ()))).2 = .ok () ∧
      (getRec (runningScope ⟨[], [], []⟩ "k" "p" (fun i => (i, .ok ()))).1.disk "k").map
        Rec.state = some (some "done")) ∧
    ((runningScope ⟨[], [], []⟩ "k" "p" (fun i => (i, .error "trace"))).2 = .error "trace" ∧
      (getRec (runningScope ⟨[], [], []⟩ "k" "p"
        (fun i => (i, .error "trace"))).1.disk "k").map Rec.error = some (some "trace")) := by
  have h1 := (C7_running_scope ⟨[], [], []⟩ "k" "p" (fun i => (i, .ok ()))).1
    (set_key ⟨[], [], []⟩ "k" ⟨some "running", some "p", none, none⟩) rfl
  have h2 := (C7_running_scope ⟨[], [], []⟩ "k" "p" (fun i => (i, .error "trace"))).2
    (set_key ⟨[], [], []⟩ "k" ⟨some "running", some "p", none, none⟩) "trace" rfl
  refine ⟨⟨h1.1, ?_⟩, ⟨h2.1, ?_⟩⟩
  · rw [h1.2.2.2.1]
    simp [h1.2.2.2.2]
  · rw [h2.2.2.2.1]
    simp [h2.2.2.2.2.2]

/-- C8: the three prechecks of suggestions_are_same — no temporal overlap
(later ends before earlier starts), end times further apart than the
tolerance, or differing categories — each force the answer false, for every
payload, every flag setting and every similarity scorer, before any
category-specific rule is consulted. -/
theorem C8_precheck_order (earlier later : SuggestionLog) (tolerance : ℚ)
    (match_npc_name_only strict_match_improvised_npc : Bool)
    (ratioFn : String → String → ℚ) (npc_speech_similarity_threshold : ℚ)
    (h : later.stop < earlier.start ∨ tolerance < |later.stop - earlier.stop| ∨
      earlier.suggestion.suggest_type ≠ later.suggestion.suggest_type) :
    suggestions_are_same earlier later tolerance match_npc_name_only
      strict_match_improvised_npc ratioFn npc_speech_similarity_threshold = false := by
  unfold suggestions_are_same
  rcases h with h | h | h
  · simp [h]
  · by_cases h1 : later.stop < earlier.start
    · simp [h1]
    · have h2 : ¬(|later.stop - earlier.stop| ≤ tolerance) := not_le.mpr h
      simp [h1, h2]
  · by_cases h1 : later.stop < earlier.start
    · simp [h1]
    · by_cases h2 : |later.stop - earlier.stop| ≤ tolerance
      · simp [h1, h2, h]
      · simp [h1, h2]

/-- Witness for C8: a pair violating each precheck in turn. -/
theorem C8_precheck_order_witness :
    suggestions_are_same ⟨10, 11, ⟨"gamedata", "e", "", "", "", "", "", ""⟩⟩
      ⟨3, 4, ⟨"gamedata", "e", "", "", "", "", "", ""⟩⟩ 30 false false (fun _ _ => 100) 80
      = false ∧
    suggestions_are_same ⟨10, 11, ⟨"gamedata", "e", "", "", "", "", "", ""⟩⟩
      ⟨50, 60, ⟨"gamedata", "e", "", "", "", "", "", ""⟩⟩ 30 false false (fun _ _ => 100) 80
      = false ∧
    suggestions_are_same ⟨10, 11, ⟨"gamedata", "e", "", "", "", "", "", ""⟩⟩
      ⟨12, 13, ⟨"foundry", "e", "", "", "", "", "", ""⟩⟩ 30 false false (fun _ _ => 100) 80
      = false := by
  refine ⟨?_, ?_, ?_⟩
  · exact C8_precheck_order _ _ _ _ _ _ _ (Or.inl (by norm_num))
  · exact C8_precheck_order _ _ _ _ _ _ _ (Or.inr (Or.inl (by norm_num)))
  · exact C8_precheck_order _ _ _ _ _ _ _ (Or.inr (Or.inr (by decide)))

/-- The extraction loop on an empty pending list returns the accumulator. -/
theorem extractLoop_nil (fuel : Nat) (text : List Char) (acc : List Cand) :
    extractLoop fuel text [] acc = acc := by
  cases fuel <;> rfl

/-- One unfolding of the extraction loop. -/
theorem extractLoop_cons (fuel : Nat) (text : List Char) (best : Cand)
    (rest acc : List Cand) :
    extractLoop (fuel + 1) text (best :: rest) acc =
      extractLoop fuel (eraseSpan text best.pos best.name.length)
        (pruneOverlaps best (eraseSpan text best.pos best.name.length) rest)
        (acc ++ [best]) := rfl

/-- Erasing a span keeps the length of the text. -/
theorem eraseSpan_length (text : List Char) :
    ∀ p n, (eraseSpan text p n).length = text.length := by
  induction text with
  | nil =>
    intro p n
    rfl
  | cons c cs ih =>
    intro p n
    cases p with
    | zero =>
      cases n with
      | zero => rfl
      | succ n => simp [eraseSpan, ih 0 n]
    | succ p => simp [eraseSpan, ih p n]

/-- Characters strictly inside an erased span read as spaces. -/
theorem eraseSpan_getD_erased (text : List Char) :
    ∀ p n i, p ≤ i → i < p + n → i < text.length →
      (eraseSpan text p n).getD i ' ' = ' ' := by
  induction text with
  | nil =>
    intro p n i _ _ h3
    simp at h3
  | cons c cs ih =>
    intro p n i h1 h2 h3
    cases p with
    | zero =>
      cases n with
      | zero => omega
      | succ n =>
        cases i with
        | zero => rfl
        | succ i =>
          have := ih 0 n i (Nat.zero_le i) (by omega) (by simpa using h3)
          simpa [eraseSpan] using this
    | succ p =>
      cases i with
      | zero => omega
      | succ i =>
        have := ih p n i (by omega) (by omega) (by simpa using h3)
        simpa [eraseSpan] using this

/-- A successful character-wise match pins every matched position to the
corresponding name character and keeps it inside the text. -/
theorem charsMatchAt_getD (ci : Bool) (name : List Char) :
    ∀ (text : List Char) (p : Nat), charsMatchAt ci name text p = true →
      ∀ j, j < name.length → p + j < text.length ∧
        charEqCI ci (name.getD j ' ') (text.getD (p + j) ' ') = true := by
  induction name with
  | nil =>
    intro text p _ j hj
    simp at hj
  | cons c cs ih =>
    intro text p h j hj
    simp only [charsMatchAt, Bool.and_eq_true, decide_eq_true_eq] at h
    obtain ⟨⟨hp, hc⟩, hrest⟩ := h
    cases j with
    | zero =>
      refine ⟨by omega, ?_⟩
      simp only [List.getD_cons_zero, Nat.add_zero]
      exact hc
    | succ j =>
      have hjj : j < cs.length := by simpa using hj
      have hr := ih text (p + 1) hrest j hjj
      have harith : p + (j + 1) = p + 1 + j := by omega
      rw [harith]
      simpa only [List.getD_cons_succ] using hr

/-- C4, part of the amended claim: when a text and catalog yield exactly two
candidate occurrences, a longer one and one nested inside its span (with a
name that is not all spaces), only the longer is returned; and when they
yield exactly two candidates whose spans are strictly separated, both are
returned. -/
theorem C4_amended_matcher :
    (∀ (catalog : List (List Char)) (text : List Char) (ci : Bool) (A B : Cand),
      find_potential_gamedata_matches catalog text ci = [A, B] →
      A.pos ≤ B.pos →
      B.pos + B.name.length ≤ A.pos + A.name.length →
      B.pos + B.name.length ≤ text.length →
      (∃ j, j < B.name.length ∧ B.name.getD j ' ' ≠ ' ') →
      extract_gamedata_entities catalog text ci = [A]) ∧
    (∀ (catalog : List (List Char)) (text : List Char) (ci : Bool) (A B : Cand),
      find_potential_gamedata_matches catalog text ci = [A, B] →
      (B.pos + B.name.length < A.pos ∨ A.pos + A.name.length < B.pos) →
      extract_gamedata_entities catalog text ci = [A, B]) := by
  constructor
  · intro catalog text ci A B hfp h1 h2 h3 h4
    obtain ⟨j, hj, hjne⟩ := h4
    have hov : overlapB A B = true := by
      simp only [overlapB, Bool.or_eq_true, Bool.and_eq_true, decide_eq_true_eq]
      exact Or.inl ⟨h1, by omega⟩
    have hmp : matchesPrefix B.name (eraseSpan text A.pos A.name.length) B.pos = false := by
      cases hcon : matchesPrefix B.name (eraseSpan text A.pos A.name.length) B.pos with
      | false => rfl
      | true =>
        exfalso
        have hch : charsMatchAt false B.name (eraseSpan text A.pos A.name.length) B.pos
            = true := by
          simp only [matchesPrefix, Bool.and_eq_true] at hcon
          exact hcon.1.2
        have hpin := charsMatchAt_getD false B.name _ B.pos hch j hj
        have herased : (eraseSpan text A.pos A.name.length).getD (B.pos + j) ' ' = ' ' := by
          apply eraseSpan_getD_erased text A.pos A.name.length (B.pos + j) (by omega)
            (by omega) (by omega)
        rw [herased] at hpin
        have : B.name.getD j ' ' = ' ' := by
          have h5 := hpin.2
          simpa [charEqCI] using h5
        exact hjne this
    have hprune : pruneOverlaps A (eraseSpan text A.pos A.name.length) [B] = [] := by
      simp [pruneOverlaps, List.filter, hov, hmp]
    unfold extract_gamedata_entities
    rw [hfp]
    simp only [List.length_cons, List.length_nil]
    rw [extractLoop_cons, hprune, extractLoop_nil]
    rfl
  · intro catalog text ci A B hfp hsep
    have hov : overlapB A B = false := by
      rcases hsep with h | h
      · have d1 : decide (A.pos ≤ B.pos) = false := by
          simp only [decide_eq_false_iff_not]
          omega
        have d2 : decide (A.pos ≤ B.pos + B.name.length) = false := by
          simp only [decide_eq_false_iff_not]
          omega
        simp [overlapB, d1, d2]
      · have d1 : decide (B.pos ≤ A.pos + A.name.length) = false := by
          simp only [decide_eq_false_iff_not]
          omega
        have d2 : decide (B.pos + B.name.length ≤ A.pos + A.name.length) = false := by
          simp only [decide_eq_false_iff_not]
          omega
        simp [overlapB, d1, d2]
    have hprune : pruneOverlaps A (eraseSpan text A.pos A.name.length) [B] = [B] := by
      simp [pruneOverlaps, List.filter, hov]
    unfold extract_gamedata_entities
    rw [hfp]
    simp only [List.length_cons, List.length_nil]
    rw [extractLoop_cons, hprune, extractLoop_cons]
    simp [pruneOverlaps, extractLoop_nil]

/-- Witness for C4 amended: the spec example — Dragon nested in Ancient Red
Dragon keeps only the longer; two separated names are both returned. -/
theorem C4_amended_matcher_witness :
    extract_gamedata_entities ["ancient red dragon".toList, "dragon".toList]
      "the ancient red dragon".toList true = [⟨"ancient red dragon".toList, 4⟩] ∧
    extract_gamedata_entities ["dragon".toList, "owlbear".toList]
      "a dragon and an owlbear".toList true
      = [⟨"owlbear".toList, 16⟩, ⟨"dragon".toList, 2⟩] := by
  constructor
  · exact C4_amended_matcher.1 ["ancient red dragon".toList, "dragon".toList]
      "the ancient red dragon".toList true ⟨"ancient red dragon".toList, 4⟩
      ⟨"dragon".toList, 16⟩ (by decide) (by decide) (by decide) (by decide)
      ⟨0, by decide, by decide⟩
  · exact C4_amended_matcher.2 ["dragon".toList, "owlbear".toList]
      "a dragon and an owlbear".toList true ⟨"owlbear".toList, 16⟩
      ⟨"dragon".toList, 2⟩ (by decide) (Or.inl (by decide))

/-- C4, counterexample to the universally quantified claim: with catalog
aa bb cc / cc dd / dd and text aa bb cc dd, the occurrence of dd at 9 is
strictly nested inside the occurrence of cc dd at 6, yet the matcher does
not return only the longer match for that span: the accepted longest
candidate aa bb cc invalidates cc dd, and the nested dd itself is
returned. -/
theorem C4_counterexample :
    matchesAt true "cc dd".toList "aa bb cc dd".toList 6 = true ∧
    matchesAt true "dd".toList "aa bb cc dd".toList 9 = true ∧
    (6 ≤ 9 ∧ 9 + 2 ≤ 6 + 5 ∧ (6, 11) ≠ (9, 11)) ∧
    extract_gamedata_entities ["aa bb cc".toList, "cc dd".toList, "dd".toList]
      "aa bb cc dd".toList true
      = [⟨"aa bb cc".toList, 0⟩, ⟨"dd".toList, 9⟩] := by
  decide

/-- C5, amended: in one pruning step after the longest remaining candidate
is accepted and its span erased, a pending candidate that overlaps the
erased span (by the boundary-inclusive overlap test of the code) is dropped
if and only if its name fails the case-sensitive anchored recheck at its
original start position in the erased text. -/
theorem C5_amended_prune_iff (best c : Cand) (text : List Char) (rest : List Cand)
    (hmem : c ∈ rest) (hov : overlapB best c = true) :
    (c ∈ pruneOverlaps best (eraseSpan text best.pos best.name.length) rest ↔
      matchesPrefix c.name (eraseSpan text best.pos best.name.length) c.pos = true) := by
  simp [pruneOverlaps, List.mem_filter, hmem, hov]

/-- Witness for C5 amended at the Wolf (2024) / Bear instance. -/
theorem C5_amended_prune_iff_witness :
    ((⟨"Bear".toList, 11⟩ : Cand) ∈ pruneOverlaps ⟨"Wolf (2024)".toList, 0⟩
        (eraseSpan "Wolf (2024)bear".toList 0 ("Wolf (2024)".toList).length)
        [⟨"Bear".toList, 11⟩] ↔
      matchesPrefix "Bear".toList
        (eraseSpan "Wolf (2024)bear".toList 0 ("Wolf (2024)".toList).length) 11 = true) := by
  exact C5_amended_prune_iff ⟨"Wolf (2024)".toList, 0⟩ ⟨"Bear".toList, 11⟩
    "Wolf (2024)bear".toList [⟨"Bear".toList, 11⟩] (by decide) (by decide)

/-- C5, counterexample to the claim that every position-overlapping pending
candidate none of whose own matched characters were erased survives and is
returned: with catalog Wolf (2024) / Bear and text Wolf (2024)bear (matched
case-insensitively), the Bear candidate at 11 overlaps the accepted span
[0, 11) only at its boundary, none of its own characters [11, 15) are
erased, yet the case-sensitive recheck fails (Bear against bear) and the
candidate is dropped and not returned. -/
theorem C5_counterexample :
    find_potential_gamedata_matches ["Wolf (2024)".toList, "Bear".toList]
      "Wolf (2024)bear".toList true
      = [⟨"Wolf (2024)".toList, 0⟩, ⟨"Bear".toList, 11⟩] ∧
    overlapB ⟨"Wolf (2024)".toList, 0⟩ ⟨"Bear".toList, 11⟩ = true ∧
    0 + ("Wolf (2024)".toList).length ≤ 11 ∧
    matchesAt true "Bear".toList "Wolf (2024)bear".toList 11 = true ∧
    extract_gamedata_entities ["Wolf (2024)".toList, "Bear".toList]
      "Wolf (2024)bear".toList true = [⟨"Wolf (2024)".toList, 0⟩] := by
  decide

/-- An ascending Python range is empty when the start is not below the
stop, whatever the fuel. -/
theorem pyRangeUp_empty (stop step cur : ℤ) (h : ¬cur < stop) :
    ∀ n, pyRangeUp stop step cur n = [] := by
  intro n
  cases n with
  | zero => rfl
  | succ n => simp [pyRangeUp, h]

/-- C3, amended: in text-transcript mode a seek offset strictly past the
total duration fails fast with the out-of-range ValueError before any
window is produced; raw-audio mode has no such check: when the
frame-aligned seek byte offset lands at or past the end of the audio the
generator silently yields the empty sequence instead of failing. -/
theorem C3_amended_seek_range :
    (∀ (segments : List Segment) (yield_every v : ℚ),
      segments ≠ [] → v ≠ 0 → maxStop segments < v →
      text_chunks_from_transcript_file segments yield_every (some v)
        = .error "Provided starting value is past total duration.") ∧
    (∀ (audio : List UInt8) (yield_every v : ℚ),
      v ≠ 0 → 0 < pyInt (48000 * yield_every) →
      (audio.length : ℤ) ≤ pyInt (48000 * v) - pyInt (48000 * v) % 2 →
      audio_chunks_from_file audio yield_every (some v) = .ok []) := by
  constructor
  · intro segments ye v hne hv hlt
    cases segments with
    | nil => exact absurd rfl hne
    | cons s0 rest =>
      have hseek : seekVal (some v) = v := by simp [seekVal, hv]
      unfold text_chunks_from_transcript_file
      rw [hseek]
      simp [hlt]
  · intro audio ye v hv hcs hpast
    have hseek : seekVal (some v) = v := by simp [seekVal, hv]
    have hv0 : ¬(seekVal (some v) = 0) := by
      rw [hseek]
      exact hv
    unfold audio_chunks_from_file
    rw [if_neg (by omega : ¬pyInt (48000 * ye) = 0)]
    rw [if_neg hv0, hseek]
    unfold pyRange
    rw [if_pos hcs]
    rw [pyRangeUp_empty _ _ _ (by omega)]
    rfl

/-- Witness for C3 amended: a one-segment transcript sought past its end
errors, and a four-byte audio buffer sought one second in yields nothing. -/
theorem C3_amended_seek_range_witness :
    text_chunks_from_transcript_file [⟨0, 5, "a"⟩] 5 (some 6)
      = .error "Provided starting value is past total duration." ∧
    audio_chunks_from_file [0, 0, 0, 0] 5 (some 1) = .ok [] := by
  constructor
  · exact C3_amended_seek_range.1 [⟨0, 5, "a"⟩] 5 6 (by simp) (by norm_num)
      (by norm_num [maxStop])
  · exact C3_amended_seek_range.2 [0, 0, 0, 0] 5 1 (by norm_num)
      (by norm_num [pyInt]) (by norm_num [pyInt])

/-- C3, counterexample: in raw-audio mode a seek offset of one second on an
audio input whose total duration is 4 / 48000 seconds — strictly past the
end — does not fail with a range error; the segmenter silently yields the
empty sequence. -/
theorem C3_counterexample :
    (4 : ℚ) / 48000 < 1 ∧
    audio_chunks_from_file [0, 0, 0, 0] 5 (some 1) = .ok [] := by
  constructor
  · norm_num
  · unfold audio_chunks_from_file
    norm_num [seekVal, pyInt, pyRange, pyRangeUp_empty]

/-- C10: in span-search mode the staged-NPC set is toggled at match time,
inside the NPC pass, before the per-window, immediate-repeat and debounce
checks run: the resulting staged set of a window depends only on the
previous staged set and the NPC matches (first conjunct); an NPC absent
from the set yields a stage_npc tuple and enters the set, and even when
that suggestion is suppressed (here by the immediate-repeat rule, emitting
nothing) the set keeps the flip, so the next match of the same NPC yields
the opposite action, an unstage_npc tuple. -/
theorem C10_npc_toggle_before_suppression (st : SpanState) (e1 : ℚ) (npc : String)
    (hnot : st.staged_npcs.contains npc = false)
    (hlast : st.last_suggestion = some ("stage_npc", npc)) :
    (∀ ents endT, ((processWindow st endT ents [npc]).1).staged_npcs
      = (buildNpcTuples st.staged_npcs [npc]).2) ∧
    (buildNpcTuples st.staged_npcs [npc]).1 = [("stage_npc", npc)] ∧
    (processWindow st e1 [] [npc]).2 = [] ∧
    ((processWindow st e1 [] [npc]).1).staged_npcs.contains npc = true ∧
    (buildNpcTuples ((processWindow st e1 [] [npc]).1).staged_npcs [npc]).1
      = [("unstage_npc", npc)] := by
  have hmem : npc ∉ st.staged_npcs := by simpa using hnot
  have hb : buildNpcTuples st.staged_npcs [npc]
      = ([("stage_npc", npc)], npc :: st.staged_npcs) := by
    simp [buildNpcTuples, hmem]
  have hpw : processWindow st e1 [] [npc]
      = (⟨st.last_suggestion, st.suggestion_seen_at, npc :: st.staged_npcs⟩, []) := by
    simp [processWindow, hb, emitLoop, hlast]
  refine ⟨fun ents endT => rfl, by rw [hb], by rw [hpw], ?_, ?_⟩
  · rw [hpw]
    simp
  · rw [hpw]
    simp [buildNpcTuples]

/-- Witness for C10 at a concrete state in which the stage suggestion for
the NPC is suppressed by the immediate-repeat rule. -/
theorem C10_npc_toggle_before_suppression_witness :
    (processWindow ⟨some ("stage_npc", "gordon"), [], []⟩ 10 [] ["gordon"]).2 = [] ∧
    (buildNpcTuples
      ((processWindow ⟨some ("stage_npc", "gordon"), [], []⟩ 10 [] ["gordon"]).1).staged_npcs
      ["gordon"]).1 = [("unstage_npc", "gordon")] := by
  have h := C10_npc_toggle_before_suppression ⟨some ("stage_npc", "gordon"), [], []⟩ 10
    "gordon" (by decide) rfl
  exact ⟨h.2.2.1, h.2.2.2.2⟩

/-- Appending one window that starts where the chain ends keeps it a
chain. -/
theorem windChain_append_single {α : Type} (l : List (α × ℚ × ℚ)) (w : α × ℚ × ℚ)
    (hch : windChain l) (hlink : ∀ w', l.getLast? = some w' → w'.2.2 = w.2.1) :
    windChain (l ++ [w]) := by
  unfold windChain at hch ⊢
  rw [List.chain'_append]
  refine ⟨hch, List.chain'_singleton _, ?_⟩
  intro x hx y hy
  have hyw : w = y := by simpa using hy
  rw [← hyw]
  exact hlink x hx

/-- A contiguous chain of forward windows covers every time between the
start of its first window and the end of its last window. -/
theorem chain_covers {α : Type} :
    ∀ (l : List (α × ℚ × ℚ)), windWF l → windChain l →
      ∀ w0 wn, l.head? = some w0 → l.getLast? = some wn →
        ∀ t, w0.2.1 ≤ t → t ≤ wn.2.2 → covers l t := by
  intro l
  induction l with
  | nil =>
    intro _ _ w0 wn h0 hn t ht0 htn
    simp at h0
  | cons w tail ih =>
    intro hwf hch w0 wn h0 hn t ht0 htn
    have hw0 : w0 = w := by
      simp only [List.head?_cons, Option.some.injEq] at h0
      exact h0.symm
    subst hw0
    cases tail with
    | nil =>
      have hwn : w0 = wn := by simpa using hn
      subst hwn
      exact ⟨w0, by simp, ht0, htn⟩
    | cons w1 tail' =>
      by_cases hc : t ≤ w0.2.2
      · exact ⟨w0, by simp, ht0, hc⟩
      · push_neg at hc
        unfold windChain at hch
        rw [List.chain'_cons] at hch
        have hwf' : windWF (w1 :: tail') := by
          intro x hx
          exact hwf x (List.mem_cons_of_mem _ hx)
        have hn' : (w1 :: tail').getLast? = some wn := by
          simpa [List.getLast?_cons_cons] using hn
        have ht1 : w1.2.1 ≤ t := by
          rw [← hch.1]
          exact le_of_lt hc
        obtain ⟨wx, hmem, h1, h2⟩ := ih hwf' hch.2 w1 wn rfl hn' t ht1 htn
        exact ⟨wx, List.mem_cons_of_mem _ hmem, h1, h2⟩

/-- The head of an ascending range is its start value. -/
theorem pyRangeUp_head (stop step c : ℤ) (n : Nat) (y : ℤ)
    (h : (pyRangeUp stop step c n).head? = some y) : y = c := by
  cases n with
  | zero => simp [pyRangeUp] at h
  | succ n =>
    by_cases hlt : c < stop
    · simp only [pyRangeUp, hlt, if_true, List.head?_cons, Option.some.injEq] at h
      exact h.symm
    · simp [pyRangeUp, hlt] at h

/-- Consecutive entries of an ascending range differ by the step. -/
theorem pyRangeUp_chain (stop step : ℤ) :
    ∀ (n : Nat) (cur : ℤ),
      List.Chain' (fun a b => b = a + step) (pyRangeUp stop step cur n) := by
  intro n
  induction n with
  | zero =>
    intro cur
    simp [pyRangeUp]
  | succ n ih =>
    intro cur
    by_cases hlt : cur < stop
    · simp only [pyRangeUp, hlt, if_true]
      rw [List.chain'_cons']
      refine ⟨?_, ih (cur + step)⟩
      intro y hy
      exact pyRangeUp_head stop step (cur + step) n y hy
    · simp [pyRangeUp, hlt]

/-- dropSeek returns a subset of its input that is still end-sorted. -/
theorem dropSeek_props (q : ℚ) :
    ∀ (segs l : List Segment), dropSeek q segs = some l →
      (∀ s ∈ l, s ∈ segs) ∧
      (List.Chain' (fun a b => a.stop ≤ b.stop) segs →
        List.Chain' (fun a b => a.stop ≤ b.stop) l) := by
  intro segs
  induction segs with
  | nil =>
    intro l h
    simp [dropSeek] at h
  | cons s rest ih =>
    intro l h
    by_cases hlt : s.stop < q
    · simp only [dropSeek, hlt, if_true] at h
      obtain ⟨hmem, hch⟩ := ih l h
      refine ⟨fun x hx => List.mem_cons_of_mem _ (hmem x hx), fun hc => ?_⟩
      exact hch (List.chain'_cons'.mp hc).2
    · simp only [dropSeek, hlt, if_false, Option.some.injEq] at h
      subst h
      exact ⟨fun x hx => hx, fun hc => hc⟩

/-- One step of the text segmenter preserves the window invariants and
moves the last-end watermark to the segment end. -/
theorem tstep_invariant (ye : ℚ) (st : TState) (seg : Segment)
    (hseg : seg.start ≤ seg.stop) (hle : st.last_end ≤ seg.stop)
    (hwf : windWF st.out) (hch : windChain st.out)
    (hbs : st.buffer_start ≤ st.last_end)
    (hlink : ∀ w, st.out.getLast? = some w → w.2.2 = st.buffer_start) :
    windWF (tstep ye st seg).out ∧ windChain (tstep ye st seg).out ∧
      (tstep ye st seg).buffer_start ≤ (tstep ye st seg).last_end ∧
      (∀ w, (tstep ye st seg).out.getLast? = some w →
        w.2.2 = (tstep ye st seg).buffer_start) ∧
      (tstep ye st seg).last_end = seg.stop := by
  have hbs2 : st.buffer_start ≤ seg.stop := le_trans hbs hle
  unfold tstep
  by_cases h1 : some (pyStrip seg.text) = st.last_text ∧ seg.start = st.last_end
  · rw [if_pos h1]
    exact ⟨hwf, hch, hbs2, hlink, rfl⟩
  · rw [if_neg h1]
    by_cases h2 : ye ≤ st.buffer_span_len + (seg.stop - seg.start) + (seg.start - st.last_end)
    · rw [if_pos h2]
      refine ⟨?_, ?_, le_refl _, ?_, rfl⟩
      · intro w hw
        rcases List.mem_append.mp hw with h | h
        · exact hwf w h
        · have hwe : w = (String.intercalate "\n" (st.buffer ++ [pyStrip seg.text]),
              st.buffer_start, seg.stop) := by simpa using h
          rw [hwe]
          exact hbs2
      · exact windChain_append_single _ _ hch hlink
      · intro w hw
        rw [List.getLast?_concat] at hw
        have hwe : (String.intercalate "\n" (st.buffer ++ [pyStrip seg.text]),
            st.buffer_start, seg.stop) = w := by simpa using hw
        rw [← hwe]
    · rw [if_neg h2]
      exact ⟨hwf, hch, hbs2, hlink, rfl⟩

/-- The main loop of the text segmenter preserves the window invariants. -/
theorem tstep_fold_invariant (ye : ℚ) :
    ∀ (segs : List Segment) (st : TState),
      (∀ s ∈ segs, s.start ≤ s.stop) →
      List.Chain' (fun a b => a.stop ≤ b.stop) segs →
      (∀ s, segs.head? = some s → st.last_end ≤ s.stop) →
      windWF st.out → windChain st.out →
      st.buffer_start ≤ st.last_end →
      (∀ w, st.out.getLast? = some w → w.2.2 = st.buffer_start) →
      (windWF (segs.foldl (tstep ye) st).out ∧
        windChain (segs.foldl (tstep ye) st).out ∧
        (segs.foldl (tstep ye) st).buffer_start ≤ (segs.foldl (tstep ye) st).last_end ∧
        (∀ w, (segs.foldl (tstep ye) st).out.getLast? = some w →
          w.2.2 = (segs.foldl (tstep ye) st).buffer_start)) := by
  intro segs
  induction segs with
  | nil =>
    intro st _ _ _ hwf hch hbs hlink
    exact ⟨hwf, hch, hbs, hlink⟩
  | cons seg rest ih =>
    intro st hsegwf hchain hhead hwf hch hbs hlink
    have hseg : seg.start ≤ seg.stop := hsegwf seg (by simp)
    have hle : st.last_end ≤ seg.stop := hhead seg rfl
    obtain ⟨hwf1, hch1, hbs1, hlink1, hlast1⟩ :=
      tstep_invariant ye st seg hseg hle hwf hch hbs hlink
    rw [List.foldl_cons]
    apply ih (tstep ye st seg)
    · intro s hs
      exact hsegwf s (List.mem_cons_of_mem _ hs)
    · exact (List.chain'_cons'.mp hchain).2
    · intro s hs
      rw [hlast1]
      exact (List.chain'_cons'.mp hchain).1 s hs
    · exact hwf1
    · exact hch1
    · exact hbs1
    · exact hlink1

/-- Unfolding one step of a nonempty ascending range. -/
theorem pyRangeUp_step (stop step cur : ℤ) (n : Nat) (h : cur < stop) :
    pyRangeUp stop step cur (n + 1) = cur :: pyRangeUp stop step (cur + step) n := by
  simp [pyRangeUp, h]

/-- C9, amended: for well-formed input (segments each running forward with
non-decreasing end times; a positive audio chunk size), every window of one
segmenter call runs forward in time, the windows are in ascending order and
exactly contiguous (each ends where the next starts), and they jointly
cover, with no gaps, the interval from the first window's start to the last
window's end.  (That interval can be a strict sub-interval of
[seekTo, totalDuration]: seeking into silence starts the first text window
later than seekTo, and trailing discarded duplicates end the last one
early.) -/
theorem C9_amended_window_invariants :
    (∀ (segments : List Segment) (yield_every : ℚ) (seek_to : Option ℚ)
        (out : List (String × ℚ × ℚ)),
      (∀ s ∈ segments, s.start ≤ s.stop) →
      List.Chain' (fun a b => a.stop ≤ b.stop) segments →
      text_chunks_from_transcript_file segments yield_every seek_to = .ok out →
      windWF out ∧ windChain out ∧
        (∀ w0 wn, out.head? = some w0 → out.getLast? = some wn →
          ∀ t, w0.2.1 ≤ t → t ≤ wn.2.2 → covers out t)) ∧
    (∀ (audio : List UInt8) (yield_every : ℚ) (seek_to : Option ℚ)
        (out : List (List UInt8 × ℚ × ℚ)),
      0 < pyInt (48000 * yield_every) →
      audio_chunks_from_file audio yield_every seek_to = .ok out →
      windWF out ∧ windChain out ∧
        (∀ w0 wn, out.head? = some w0 → out.getLast? = some wn →
          ∀ t, w0.2.1 ≤ t → t ≤ wn.2.2 → covers out t)) := by
  constructor
  · intro segments ye seek out hwfseg hchseg hok
    cases segments with
    | nil => simp [text_chunks_from_transcript_file] at hok
    | cons s0 rest =>
      simp only [text_chunks_from_transcript_file] at hok
      by_cases hlt : maxStop (s0 :: rest) < seekVal seek
      · rw [if_pos hlt] at hok
        simp at hok
      · rw [if_neg hlt] at hok
        cases hdrop : dropSeek (seekVal seek) (s0 :: rest) with
        | none =>
          rw [hdrop] at hok
          simp at hok
        | some l =>
          rw [hdrop] at hok
          cases l with
          | nil => simp at hok
          | cons f tail =>
            simp only [Except.ok.injEq] at hok
            obtain ⟨hmem, hchsub⟩ := dropSeek_props (seekVal seek) (s0 :: rest) (f :: tail) hdrop
            have hwfsub : ∀ s ∈ f :: tail, s.start ≤ s.stop := fun s hs =>
              hwfseg s (hmem s hs)
            have hchain : List.Chain' (fun a b => a.stop ≤ b.stop) (f :: tail) :=
              hchsub hchseg
            obtain ⟨hwfS, hchS, hbsS, hlinkS⟩ := tstep_fold_invariant ye (f :: tail)
              { buffer := [], buffer_start := f.start, buffer_span_len := 0,
                last_end := f.start, last_text := none, out := [] }
              hwfsub hchain
              (fun s hs => by
                have hsf : f = s := by simpa using hs
                rw [← hsf]
                exact hwfsub f (by simp))
              (fun w hw => by simp at hw)
              List.chain'_nil
              (le_refl _)
              (fun w hw => by simp at hw)
            set st' := (f :: tail).foldl (tstep ye)
              { buffer := [], buffer_start := f.start, buffer_span_len := 0,
                last_end := f.start, last_text := none, out := [] } with hst'
            rw [← hok]
            unfold tflush
            by_cases hbuf : st'.buffer = []
            · rw [if_pos hbuf]
              exact ⟨hwfS, hchS, chain_covers _ hwfS hchS⟩
            · rw [if_neg hbuf]
              have hwfO : windWF (st'.out ++
                  [(String.intercalate "\n" st'.buffer, st'.buffer_start, st'.last_end)]) := by
                intro w hw
                rcases List.mem_append.mp hw with h | h
                · exact hwfS w h
                · have hwe : w = (String.intercalate "\n" st'.buffer, st'.buffer_start,
                      st'.last_end) := by simpa using h
                  rw [hwe]
                  exact hbsS
              have hchO := windChain_append_single st'.out
                (String.intercalate "\n" st'.buffer, st'.buffer_start, st'.last_end) hchS hlinkS
              exact ⟨hwfO, hchO, chain_covers _ hwfO hchO⟩
  · intro audio ye seek out hcs hok
    simp only [audio_chunks_from_file] at hok
    rw [if_neg (by omega : ¬pyInt (48000 * ye) = 0)] at hok
    simp only [Except.ok.injEq] at hok
    rw [← hok]
    have hwfA : windWF ((pyRange (if seekVal seek = 0 then 0 else
        pyInt (48000 * seekVal seek) - pyInt (48000 * seekVal seek) % 2)
        (audio.length : ℤ) (pyInt (48000 * ye))).map (fun sec =>
        ((audio.take (sec + pyInt (48000 * ye)).toNat).drop sec.toNat,
          (sec : ℚ) / 48000, ((sec : ℚ) + (pyInt (48000 * ye) : ℚ)) / 48000))) := by
      intro w hw
      obtain ⟨sec, _, hsec⟩ := List.mem_map.mp hw
      rw [← hsec]
      have hnn : (0 : ℚ) ≤ (pyInt (48000 * ye) : ℚ) := by
        exact_mod_cast le_of_lt hcs
      have : (sec : ℚ) ≤ (sec : ℚ) + (pyInt (48000 * ye) : ℚ) := le_add_of_nonneg_right hnn
      exact div_le_div_of_nonneg_right this (by norm_num) |>.trans_eq rfl
    have hchA : windChain ((pyRange (if seekVal seek = 0 then 0 else
        pyInt (48000 * seekVal seek) - pyInt (48000 * seekVal seek) % 2)
        (audio.length : ℤ) (pyInt (48000 * ye))).map (fun sec =>
        ((audio.take (sec + pyInt (48000 * ye)).toNat).drop sec.toNat,
          (sec : ℚ) / 48000, ((sec : ℚ) + (pyInt (48000 * ye) : ℚ)) / 48000))) := by
      unfold windChain
      rw [List.chain'_map, pyRange, if_pos hcs]
      refine List.Chain'.imp ?_ (pyRangeUp_chain _ _ _ _)
      intro a b hab
      subst hab
      push_cast
      ring
    exact ⟨hwfA, hchA, chain_covers _ hwfA hchA⟩

/-- Witness for C9 amended: a two-segment transcript yielding two
contiguous windows (with time 7 covered), and a short audio buffer yielding
one window. -/
theorem C9_amended_window_invariants_witness :
    windWF [(("a" : String), (0 : ℚ), (5 : ℚ)), ("b", 5, 10)] ∧
    windChain [(("a" : String), (0 : ℚ), (5 : ℚ)), ("b", 5, 10)] ∧
    covers [(("a" : String), (0 : ℚ), (5 : ℚ)), ("b", 5, 10)] 7 ∧
    windWF [(([0, 0, 0, 0] : List UInt8), (0 : ℚ), (5 : ℚ))] ∧
    windChain [(([0, 0, 0, 0] : List UInt8), (0 : ℚ), (5 : ℚ))] := by
  have htext := C9_amended_window_invariants.1 [⟨0, 5, "a"⟩, ⟨5, 10, "b"⟩] 5 none
    [("a", 0, 5), ("b", 5, 10)]
    (by decide)
    (by norm_num [List.chain'_cons, List.chain'_singleton])
    (by norm_num +decide [text_chunks_from_transcript_file, tstep, tflush, dropSeek,
      maxStop, seekVal, List.foldl, String.intercalate, pyStrip])
  have haudio := C9_amended_window_invariants.2 [0, 0, 0, 0] 5 none
    [([0, 0, 0, 0], 0, 5)]
    (by norm_num [pyInt])
    (by
      unfold audio_chunks_from_file
      norm_num [seekVal, pyInt, pyRange]
      rw [show Int.toNat 4 + 1 = 4 + 1 from by decide,
        pyRangeUp_step _ _ _ _ (by norm_num),
        pyRangeUp_empty _ _ _ (by norm_num)]
      norm_num +decide [List.take_of_length_le])
  exact ⟨htext.1, htext.2.1,
    htext.2.2 ("a", 0, 5) ("b", 5, 10) rfl rfl 7 (by norm_num) (by norm_num),
    haudio.1, haudio.2.1⟩

/-- C9, counterexample: on segments (0,5,a), (10,15,b), (15,16,b) with
yield_every 5 and seekTo 7 (total duration 16), the call yields the single
window (b, 10, 15), which leaves both time 7 (the seek point, inside
leading silence) and time 16 (the end of a trailing discarded duplicate)
uncovered, so the windows do not cover [seekTo, totalDuration]. -/
theorem C9_counterexample :
    text_chunks_from_transcript_file [⟨0, 5, "a"⟩, ⟨10, 15, "b"⟩, ⟨15, 16, "b"⟩] 5 (some 7)
      = .ok [("b", 10, 15)] ∧
    maxStop [⟨0, 5, "a"⟩, ⟨10, 15, "b"⟩, ⟨15, 16, "b"⟩] = 16 ∧
    ¬ covers [(("b" : String), (10 : ℚ), (15 : ℚ))] 7 ∧
    ¬ covers [(("b" : String), (10 : ℚ), (15 : ℚ))] 16 := by
  refine ⟨?_, ?_, ?_, ?_⟩
  · norm_num +decide [text_chunks_from_transcript_file, tstep, tflush, dropSeek,
      maxStop, seekVal, List.foldl, String.intercalate, pyStrip]
  · norm_num [maxStop]
  · simp only [covers, List.mem_singleton]
    norm_num
  · simp only [covers, List.mem_singleton]
    norm_num

end Overhearing
